import Mathlib

/-
Verification of the GHC symbol demangler (demangle-ghc.c).

The decoder is embedded at two levels:
  1. a contents-level model (demangleGo / demangle) in which every
     allocation succeeds and the output accumulator is represented by the
     list of bytes written so far; and
  2. an allocation-level model (haskell_demangle and the str_buf
     operations) that threads an allocation-failure oracle and a live-block
     counter, in order to examine the error paths of the C code.

Bytes are natural numbers (the value of the corresponding char).  An input
string is the list of its bytes up to, and not including, the final
terminator byte 0; since C strings cannot contain an interior 0, a byte 0
inside the list is treated exactly as the code treats the terminator.

The parameter named junk stands for the content of an uninitialized heap
cell: cells that the C code allocates but never writes are modelled as
holding this value.  It is only observable through the defect in
str_buf_push_str, whose memcpy targets the start of the buffer rather
than the write position.
-/

/-- The character classifier isdigit from ctype.h, for byte 48 to 57. -/
def isDigit (c : Nat) : Bool := decide (48 ≤ c ∧ c ≤ 57)

/-- The character classifier isxdigit from ctype.h: decimal digits,
lowercase a to f (97 to 102), and also uppercase A to F (65 to 70). -/
def isXDigit (c : Nat) : Bool :=
  isDigit c || decide (97 ≤ c ∧ c ≤ 102) || decide (65 ≤ c ∧ c ≤ 70)

/-- The static table z_chars of demangle-ghc.c: index is the letter minus
97; an entry 0 means unmapped (the C array holds 0 there). -/
def z_chars (i : Nat) : Nat :=
  match i with
  | 0 => 38    -- a: &
  | 1 => 124   -- b: |
  | 2 => 94    -- c: ^
  | 3 => 36    -- d: dollar
  | 4 => 61    -- e: =
  | 6 => 62    -- g: >
  | 7 => 35    -- h: #
  | 8 => 46    -- i: .
  | 11 => 60   -- l: <
  | 12 => 45   -- m: -
  | 13 => 33   -- n: !
  | 15 => 43   -- p: +
  | 16 => 39   -- q: single quote
  | 17 => 92   -- r: backslash
  | 18 => 47   -- s: /
  | 19 => 42   -- t: *
  | 20 => 95   -- u: underscore
  | 21 => 37   -- v: percent
  | 25 => 122  -- z: z
  | _ => 0

/-- The static table Z_chars of demangle-ghc.c: index is the letter minus
67; an entry 0 means unmapped. -/
def Z_chars (i : Nat) : Nat :=
  match i with
  | 0 => 58    -- C: colon
  | 9 => 40    -- L: (
  | 10 => 91   -- M: [
  | 11 => 93   -- N: ]
  | 15 => 41   -- R: )
  | 23 => 90   -- Z: Z
  | _ => 0

/-- One step of the hex accumulation in the numeric escape of
haskell_demangle: char_code is a uint32, so the update
char_code = char_code * 16 + digitvalue is taken mod 2 to the 32.  The
digit value follows the source exactly: for a byte at most 57 it is the
byte minus 48, otherwise it is 10 + byte - 97 computed in uint32
arithmetic, which for an uppercase hex letter wraps around
(4294967209 = 2 to the 32 + 10 - 97). -/
def hexVal32 (v c : Nat) : Nat :=
  if c ≤ 57 then (v * 16 + (c - 48)) % 4294967296
  else (v * 16 + c + 4294967209) % 4294967296

/-- One step of the decimal arity accumulation: arity is a uint32, so
arity = arity * 10 + (byte - 48) is taken mod 2 to the 32. -/
def decStep (a c : Nat) : Nat := (a * 10 + (c - 48)) % 4294967296

/-- The do-while loop of the numeric escape: consume bytes while they
satisfy isxdigit, folding hexVal32; return the accumulated value and the
unconsumed remainder of the input. -/
def hexRun : Nat → List Nat → Nat × List Nat
  | v, [] => (v, [])
  | v, c :: rest => if isXDigit c then hexRun (hexVal32 v c) rest else (v, c :: rest)

/-- The do-while loop of the arity parse: consume bytes while they satisfy
isdigit, folding decStep. -/
def decRun : Nat → List Nat → Nat × List Nat
  | a, [] => (a, [])
  | a, c :: rest => if isDigit c then decRun (decStep a c) rest else (a, c :: rest)

/-- The pure body of str_buf_push_char_code: the four-tier variable-width
encoding of a code point, or none when the value exceeds 0x10FFFF
(1114111), in which case the C function returns the error flag. -/
def charCodeBytes (v : Nat) : Option (List Nat) :=
  if v ≤ 127 then some [v]
  else if v ≤ 2047 then
    some [((v >>> 6) &&& 31) ||| 192, (v &&& 63) ||| 128]
  else if v ≤ 65535 then
    some [((v >>> 12) &&& 15) ||| 224, ((v >>> 6) &&& 63) ||| 128, (v &&& 63) ||| 128]
  else if v ≤ 1114111 then
    some [((v >>> 18) &&& 7) ||| 240, ((v >>> 12) &&& 63) ||| 128,
          ((v >>> 6) &&& 63) ||| 128, (v &&& 63) ||| 128]
  else none

/-- Contents-level view of struct str_buf, with allocation always
succeeding but capacities tracked exactly as the C computes them: data
holds the written bytes (length is data.length), capacity the size of the
block.  Tracking capacity matters because the tuple cases of the scanner
perform raw writes backed only by a RESERVE whose amount is computed in
uint32 arithmetic: when that amount wraps, the writes run past the block. -/
structure BufC where
  capacity : Nat
  data : List Nat
deriving DecidableEq

/-- str_buf_push at contents level: when length equals capacity the block
grows to capacity + capacity / 2 (allocation succeeds); the byte is then
stored at position length, which is in bounds only when length is below
the (possibly grown) capacity - none marks the out-of-bounds store.  In
every state reachable from the initial capacity of 20 the store is in
bounds. -/
def pushC (buf : BufC) (c : Nat) : Option BufC :=
  let cap := if buf.data.length = buf.capacity
             then buf.capacity + buf.capacity / 2 else buf.capacity
  if buf.data.length < cap then some { capacity := cap, data := buf.data ++ [c] }
  else none

/-- str_buf_reserve at contents level: if length + amt exceeds capacity,
grow to max(length + amt, capacity + capacity / 2); no store happens. -/
def reserveC (buf : BufC) (amt : Nat) : BufC :=
  let new_len := buf.data.length + amt
  if new_len > buf.capacity then
    { buf with capacity := if new_len > buf.capacity + buf.capacity / 2
                           then new_len else buf.capacity + buf.capacity / 2 }
  else buf

/-- A run of n raw stores buf.data[buf.length++] = c, as the tuple cases
of haskell_demangle perform after a RESERVE.  n is the number of stores
and bs the bytes stored (in every use n = bs.length); the run is in
bounds only when length + n fits the capacity, otherwise it is an
out-of-bounds heap write (undefined behaviour), marked none. -/
def writeCells (buf : BufC) (n : Nat) (bs : List Nat) : Option BufC :=
  if buf.data.length + n ≤ buf.capacity then
    some { buf with data := buf.data ++ bs }
  else none

/-- str_buf_push_str at contents level.  The C function reserves space
for s, then does memcpy(buf.data, str, len) - at offset 0, not at offset
length - and adds len to length.  The memcpy is in bounds when len fits
the capacity (always true after the reserve).  Afterwards the written
region holds: s itself, then the old bytes from position len onward, then
min(oldlength, len) cells that were never written, holding uninitialized
memory (junk). -/
def pushStrC (junk : Nat) (buf : BufC) (s : List Nat) : Option BufC :=
  let b := reserveC buf s.length
  if s.length ≤ b.capacity then
    some { b with data := s ++ List.drop s.length b.data ++
                  List.replicate (min b.data.length s.length) junk }
  else none

/-- Result of a run of the decoding state machine at contents level; oob
marks an out-of-bounds buffer write, i.e. undefined behaviour of the C
program. -/
inductive DemRes where
  | ok (out : List Nat)
  | fail
  | oob
  | fuelOut
deriving DecidableEq

/-- The scanner loop of haskell_demangle at contents level, with explicit
fuel (one unit per loop iteration; every iteration consumes at least one
input byte, so length + 1 units always suffice).  The input list holds the
bytes before the terminator; reaching the end of the list, or a byte 0
inside it, is the terminator case of the switch.  Allocation always
succeeds at this level, but capacities and the bounds of every raw store
follow the C exactly: in particular the RESERVE amounts of the tuple
cases, arity + 1 for T and arity + 3 for H, are computed in uint32
arithmetic and can wrap, leaving the subsequent stores out of bounds
(result oob). -/
def demangleGo (junk : Nat) : Nat → List Nat → BufC → DemRes
  | 0, _, _ => .fuelOut
  | _ + 1, [], buf => .ok buf.data
  | fuel + 1, c :: rest, buf =>
    if c = 122 then
      -- case z: ADVANCE, then numeric escape or lowercase table
      match rest with
      | [] => .fail  -- lookahead is the terminator: not a digit, below 97
      | d :: rest2 =>
        if isDigit d then
          let p := hexRun 0 (d :: rest2)
          match p.2 with
          | u :: rest3 =>
            if u = 85 then
              -- str_buf_push_char_code: reserve 4, tier check, then the
              -- stores (at most 4, covered by the reserve)
              let b := reserveC buf 4
              match charCodeBytes p.1 with
              | some bs =>
                match writeCells b bs.length bs with
                | some b2 => demangleGo junk fuel rest3 b2
                | none => .oob
              | none => .fail
            else .fail
          | [] => .fail  -- lookahead is the terminator, which is not 85
        else
          if d < 97 ∨ 122 < d then .fail
          else if z_chars (d - 97) = 0 then .fail
          else
            match pushC buf (z_chars (d - 97)) with
            | some b => demangleGo junk fuel rest2 b
            | none => .oob
    else if c = 90 then
      -- case Z: ADVANCE, then tuple arity or uppercase table
      match rest with
      | [] => .fail  -- lookahead is the terminator: not a digit, below 67
      | d :: rest2 =>
        if isDigit d then
          let p := decRun 0 (d :: rest2)
          match p.2 with
          | u :: rest3 =>
            if u = 84 then
              if p.1 = 0 then
                -- RESERVE(2), then two stores
                match writeCells (reserveC buf 2) 2 [40, 41] with
                | some b => demangleGo junk fuel rest3 b
                | none => .oob
              else if p.1 = 1 then .fail
              else
                -- RESERVE(arity + 1) in uint32, then arity + 1 stores
                match writeCells (reserveC buf ((p.1 + 1) % 4294967296)) (p.1 + 1)
                    (40 :: (List.replicate (p.1 - 1) 44 ++ [41])) with
                | some b => demangleGo junk fuel rest3 b
                | none => .oob
            else if u = 72 then
              if p.1 = 0 then .fail
              else if p.1 = 1 then
                match pushStrC junk buf [40, 35, 32, 35, 41] with
                | some b => demangleGo junk fuel rest3 b
                | none => .oob
              else
                -- RESERVE(arity + 3) in uint32, then arity + 3 stores
                match writeCells (reserveC buf ((p.1 + 3) % 4294967296)) (p.1 + 3)
                    (40 :: 35 :: (List.replicate (p.1 - 1) 44 ++ [35, 41])) with
                | some b => demangleGo junk fuel rest3 b
                | none => .oob
            else .fail
          | [] => .fail  -- terminator instead of a discriminator
        else
          if d < 67 ∨ 90 < d then .fail
          else if Z_chars (d - 67) = 0 then .fail
          else
            match pushC buf (Z_chars (d - 67)) with
            | some b => demangleGo junk fuel rest2 b
            | none => .oob
    else if c = 0 then .ok buf.data
    else
      match pushC buf c with
      | some b => demangleGo junk fuel rest b
      | none => .oob

/-- Contents-level decode: run the scanner with sufficient fuel from the
initial buffer (capacity DEFAULT_BUF_SIZE = 20, empty).  The result bytes
exclude the written terminator.  The Option type is the caller-facing
view (string or NULL); properties of the undefined-behaviour outcome oob
are stated on demangleGo, where it is visible. -/
def demangle (junk : Nat) (input : List Nat) : Option (List Nat) :=
  match demangleGo junk (input.length + 1) input { capacity := 20, data := [] } with
  | .ok out => some out
  | _ => none

/-- The mathematical value denoted by a decimal digit run. -/
def decVal (ds : List Nat) : Nat := List.foldl (fun a c => a * 10 + (c - 48)) 0 ds

/-- The mathematical value denoted by a lowercase hexadecimal digit run
(no wrap-around): this is what the specification means by the value a
numeric escape denotes. -/
def hexDenoted (ds : List Nat) : Nat :=
  List.foldl (fun v c => v * 16 + (if c ≤ 57 then c - 48 else c - 87)) 0 ds

/-- Allocator state for the allocation-level model: an oracle of injected
failures (true at position k makes the k-th allocation call fail; an
exhausted oracle means success) and the number of live heap blocks. -/
structure AllocSt where
  oracle : List Bool
  live : Nat
deriving DecidableEq

/-- The struct str_buf of demangle-ghc.c.  data is none when the pointer
is NULL; otherwise the list holds all capacity cells of the block. -/
structure StrBuf where
  capacity : Nat
  length : Nat
  data : Option (List Nat)
deriving DecidableEq

/-- Pop the next injected-failure decision from the oracle. -/
def takeAlloc (st : AllocSt) : Bool × AllocSt :=
  match st.oracle with
  | [] => (false, st)
  | b :: rest => (b, { st with oracle := rest })

/-- malloc(n): on success a fresh block of n uninitialized cells, and one
more live block; on injected failure NULL. -/
def hMalloc (junk n : Nat) (st : AllocSt) : Option (List Nat) × AllocSt :=
  let q := takeAlloc st
  if q.1 then (none, q.2)
  else (some (List.replicate n junk), { q.2 with live := q.2.live + 1 })

/-- realloc(old, n): on injected failure NULL is returned and the old
block stays live; on success the block is resized, preserving its cells
and filling new cells with uninitialized memory.  realloc(NULL, n)
behaves as malloc(n). -/
def hRealloc (junk : Nat) (old : Option (List Nat)) (n : Nat) (st : AllocSt) :
    Option (List Nat) × AllocSt :=
  let q := takeAlloc st
  if q.1 then (none, q.2)
  else
    match old with
    | none => (some (List.replicate n junk), { q.2 with live := q.2.live + 1 })
    | some l => (some (List.take n l ++ List.replicate (n - l.length) junk), q.2)

/-- free(p): releases a live block; free(NULL) does nothing. -/
def hFree (old : Option (List Nat)) (st : AllocSt) : AllocSt :=
  match old with
  | none => st
  | some _ => { st with live := st.live - 1 }

/-- Outcome of one str_buf operation: ok is the C function returning
false, err is it returning true (the caller then runs the fail path), and
nullDeref marks a write through a NULL pointer - the undefined behaviour
reached when buf.data is NULL because an earlier allocation failed
unchecked. -/
inductive BufRes where
  | ok (buf : StrBuf) (st : AllocSt)
  | err (buf : StrBuf) (st : AllocSt)
  | nullDeref
deriving DecidableEq

/-- str_buf_push of demangle-ghc.c: when length equals capacity, grow
capacity to 1.5 times (the capacity field is updated before the realloc,
and data is overwritten with the realloc result, so a failed realloc
leaves data NULL while the old block stays allocated); then write the
byte at position length through the data pointer. -/
def str_buf_push (junk : Nat) (buf : StrBuf) (st : AllocSt) (c : Nat) : BufRes :=
  let grown :=
    if buf.length = buf.capacity then
      let cap := buf.capacity + buf.capacity / 2
      let r := hRealloc junk buf.data cap st
      ({ capacity := cap, length := buf.length, data := r.1 }, r.2, r.1.isNone)
    else (buf, st, false)
  if grown.2.2 then .err grown.1 grown.2.1
  else
    match grown.1.data with
    | none => .nullDeref
    | some l =>
      .ok { grown.1 with
            length := grown.1.length + 1
            data := some (l.set grown.1.length c) } grown.2.1

/-- str_buf_reserve of demangle-ghc.c: if length + amt exceeds capacity,
grow to max(length + amt, 1.5 capacity); data is overwritten with the
realloc result (NULL on failure, old block leaked), and the capacity
field is updated only on success. -/
def str_buf_reserve (junk : Nat) (buf : StrBuf) (st : AllocSt) (amt : Nat) : BufRes :=
  let new_len := buf.length + amt
  if new_len > buf.capacity then
    let cap := if new_len > buf.capacity + buf.capacity / 2 then new_len
               else buf.capacity + buf.capacity / 2
    let r := hRealloc junk buf.data cap st
    match r.1 with
    | none => .err { buf with data := none } r.2
    | some l => .ok { capacity := cap, length := buf.length, data := some l } r.2
  else .ok buf st

/-- str_buf_push_str of demangle-ghc.c: reserve space for the bytes of s,
then memcpy(buf.data, str, len) - note the destination is the start of
the block, not the write position - and add len to length. -/
def str_buf_push_str (junk : Nat) (buf : StrBuf) (st : AllocSt) (s : List Nat) :
    BufRes :=
  match str_buf_reserve junk buf st s.length with
  | .err b st1 => .err b st1
  | .nullDeref => .nullDeref
  | .ok b st1 =>
    match b.data with
    | none => .nullDeref
    | some l =>
      .ok { b with
            length := b.length + s.length
            data := some (s ++ List.drop s.length l) } st1

/-- str_buf_push_char_code of demangle-ghc.c: reserve 4 cells, then write
the encoded bytes at the write position (returning the error flag, after
the reserve, when the value exceeds 0x10FFFF). -/
def str_buf_push_char_code (junk : Nat) (buf : StrBuf) (st : AllocSt) (v : Nat) :
    BufRes :=
  match str_buf_reserve junk buf st 4 with
  | .err b st1 => .err b st1
  | .nullDeref => .nullDeref
  | .ok b st1 =>
    match charCodeBytes v with
    | none => .err b st1
    | some bs =>
      match b.data with
      | none => .nullDeref
      | some l =>
        .ok { b with
              length := b.length + bs.length
              data := some (List.take b.length l ++ bs ++
                            List.drop (b.length + bs.length) l) } st1

/-- The bytes the buffer currently holds, none when the pointer is NULL. -/
def bufContents (b : StrBuf) : Option (List Nat) :=
  b.data.map (fun l => List.take b.length l)

/-- Result of the allocation-level decoder: ok carries the returned bytes
(terminator included) and the number of live blocks (1: the returned
block); fail carries the number of live blocks after the fail path ran
(a value other than 0 is a leak); nullDeref marks a write through NULL. -/
inductive ARes where
  | ok (out : List Nat) (live : Nat)
  | fail (live : Nat)
  | nullDeref
  | fuelOut
deriving DecidableEq

/-- The fail label of haskell_demangle: free(buf.data) and report. -/
def demangleAFail (buf : StrBuf) (st : AllocSt) : ARes :=
  .fail (hFree buf.data st).live

/-- The direct writes buf.data[buf.length++] = c of the tuple cases,
performed in a run after a RESERVE: none when the pointer is NULL. -/
def pushCells (buf : StrBuf) (bs : List Nat) : Option StrBuf :=
  match buf.data with
  | none => none
  | some l =>
    some { buf with
           length := buf.length + bs.length
           data := some (List.take buf.length l ++ bs ++
                         List.drop (buf.length + bs.length) l) }

/-- The terminator case of haskell_demangle: push the terminator byte,
shrink the block to exactly length bytes with realloc, and return it; if
the shrink fails the unchanged data pointer is freed by the fail path. -/
def demangleAFinish (junk : Nat) (buf : StrBuf) (st : AllocSt) : ARes :=
  match str_buf_push junk buf st 0 with
  | .nullDeref => .nullDeref
  | .err b st1 => demangleAFail b st1
  | .ok b st1 =>
    let r := hRealloc junk b.data b.length st1
    match r.1 with
    | none => demangleAFail b r.2
    | some out => .ok (List.take b.length out) r.2.live

/-- The scanner loop of haskell_demangle at allocation level.  Mirrors
demangleGo, with every PUSH, PUSH_STR, RESERVE and direct write routed
through the str_buf operations above.  Out-of-bounds direct writes past
capacity (reachable only through the uint32 wrap of the RESERVE amounts
at arities near 2 to the 32) are not flagged separately; no claim is
settled against this model in that region. -/
def demangleGoA (junk : Nat) : Nat → List Nat → StrBuf → AllocSt → ARes
  | 0, _, _, _ => .fuelOut
  | _ + 1, [], buf, st => demangleAFinish junk buf st
  | fuel + 1, c :: rest, buf, st =>
    if c = 122 then
      match rest with
      | [] => demangleAFail buf st
      | d :: rest2 =>
        if isDigit d then
          let p := hexRun 0 (d :: rest2)
          match p.2 with
          | u :: rest3 =>
            if u = 85 then
              match str_buf_push_char_code junk buf st p.1 with
              | .nullDeref => .nullDeref
              | .err b st1 => demangleAFail b st1
              | .ok b st1 => demangleGoA junk fuel rest3 b st1
            else demangleAFail buf st
          | [] => demangleAFail buf st
        else
          if d < 97 ∨ 122 < d then demangleAFail buf st
          else if z_chars (d - 97) = 0 then demangleAFail buf st
          else
            match str_buf_push junk buf st (z_chars (d - 97)) with
            | .nullDeref => .nullDeref
            | .err b st1 => demangleAFail b st1
            | .ok b st1 => demangleGoA junk fuel rest2 b st1
    else if c = 90 then
      match rest with
      | [] => demangleAFail buf st
      | d :: rest2 =>
        if isDigit d then
          let p := decRun 0 (d :: rest2)
          match p.2 with
          | u :: rest3 =>
            if u = 84 then
              if p.1 = 1 then demangleAFail buf st
              else
                -- arity 0 reserves 2 and writes the two brackets; arity
                -- at least 2 reserves (arity + 1) mod 2 to the 32 and
                -- writes the bracket, the commas, and the bracket
                let amt := if p.1 = 0 then 2 else (p.1 + 1) % 4294967296
                let bs := if p.1 = 0 then [40, 41]
                          else 40 :: (List.replicate (p.1 - 1) 44 ++ [41])
                match str_buf_reserve junk buf st amt with
                | .nullDeref => .nullDeref
                | .err b st1 => demangleAFail b st1
                | .ok b st1 =>
                  match pushCells b bs with
                  | none => .nullDeref
                  | some b2 => demangleGoA junk fuel rest3 b2 st1
            else if u = 72 then
              if p.1 = 0 then demangleAFail buf st
              else if p.1 = 1 then
                match str_buf_push_str junk buf st [40, 35, 32, 35, 41] with
                | .nullDeref => .nullDeref
                | .err b st1 => demangleAFail b st1
                | .ok b st1 => demangleGoA junk fuel rest3 b st1
              else
                match str_buf_reserve junk buf st ((p.1 + 3) % 4294967296) with
                | .nullDeref => .nullDeref
                | .err b st1 => demangleAFail b st1
                | .ok b st1 =>
                  match pushCells b
                      (40 :: 35 :: (List.replicate (p.1 - 1) 44 ++ [35, 41])) with
                  | none => .nullDeref
                  | some b2 => demangleGoA junk fuel rest3 b2 st1
            else demangleAFail buf st
          | [] => demangleAFail buf st
        else
          if d < 67 ∨ 90 < d then demangleAFail buf st
          else if Z_chars (d - 67) = 0 then demangleAFail buf st
          else
            match str_buf_push junk buf st (Z_chars (d - 67)) with
            | .nullDeref => .nullDeref
            | .err b st1 => demangleAFail b st1
            | .ok b st1 => demangleGoA junk fuel rest2 b st1
    else if c = 0 then demangleAFinish junk buf st
    else
      match str_buf_push junk buf st c with
      | .nullDeref => .nullDeref
      | .err b st1 => demangleAFail b st1
      | .ok b st1 => demangleGoA junk fuel rest b st1

/-- haskell_demangle at allocation level: the initial buffer takes its
data pointer straight from malloc(20), without a check, then the scanner
loop runs. -/
def haskell_demangle (junk : Nat) (oracle : List Bool) (input : List Nat) : ARes :=
  let m := hMalloc junk 20 { oracle := oracle, live := 0 }
  demangleGoA junk (input.length + 1) input
    { capacity := 20, length := 0, data := m.1 } m.2

theorem decRun_append (ds : List Nat) : ∀ (t : Nat) (rest : List Nat) (a : Nat),
    (∀ c ∈ ds, isDigit c = true) → isDigit t = false →
    decRun a (ds ++ t :: rest) = (List.foldl decStep a ds, t :: rest) := by
  induction ds with
  | nil => intro t rest a _ ht; simp [decRun, ht]
  | cons c tl ih =>
    intro t rest a hds ht
    have hc : isDigit c = true := hds c (by simp)
    simp only [List.cons_append, decRun, hc, if_true, List.foldl]
    exact ih t rest (decStep a c) (fun x hx => hds x (by simp [hx])) ht

theorem hexRun_append (ds : List Nat) : ∀ (t : Nat) (rest : List Nat) (v : Nat),
    (∀ c ∈ ds, isXDigit c = true) → isXDigit t = false →
    hexRun v (ds ++ t :: rest) = (List.foldl hexVal32 v ds, t :: rest) := by
  induction ds with
  | nil => intro t rest v _ ht; simp [hexRun, ht]
  | cons c tl ih =>
    intro t rest v hds ht
    have hc : isXDigit c = true := hds c (by simp)
    simp only [List.cons_append, hexRun, hc, if_true, List.foldl]
    exact ih t rest (hexVal32 v c) (fun x hx => hds x (by simp [hx])) ht

theorem foldl_decStep_mod (ds : List Nat) : ∀ v : Nat,
    List.foldl decStep (v % 4294967296) ds =
      (List.foldl (fun a c => a * 10 + (c - 48)) v ds) % 4294967296 := by
  induction ds with
  | nil => intro v; simp
  | cons c tl ih =>
    intro v
    simp only [List.foldl]
    have h : decStep (v % 4294967296) c = (v * 10 + (c - 48)) % 4294967296 := by
      rw [decStep, Nat.add_mod, Nat.mod_mul_mod, ← Nat.add_mod]
    rw [h, ih (v * 10 + (c - 48))]

theorem decRun_val (ds : List Nat) (t : Nat) (rest : List Nat)
    (hds : ∀ c ∈ ds, isDigit c = true) (ht : isDigit t = false) :
    decRun 0 (ds ++ t :: rest) = (decVal ds % 4294967296, t :: rest) := by
  rw [decRun_append ds t rest 0 hds ht]
  have h := foldl_decStep_mod ds 0
  rw [Nat.zero_mod] at h
  rw [h]; rfl

theorem hexRun_length (l : List Nat) : ∀ v : Nat,
    (hexRun v l).2.length ≤ l.length := by
  induction l with
  | nil => intro v; simp [hexRun]
  | cons c tl ih =>
    intro v
    by_cases h : isXDigit c
    · simp only [hexRun, h, if_true]
      exact (ih (hexVal32 v c)).trans (by simp)
    · simp [hexRun, h]

theorem decRun_length (l : List Nat) : ∀ a : Nat,
    (decRun a l).2.length ≤ l.length := by
  induction l with
  | nil => intro a; simp [decRun]
  | cons c tl ih =>
    intro a
    by_cases h : isDigit c
    · simp only [decRun, h, if_true]
      exact (ih (decStep a c)).trans (by simp)
    · simp [decRun, h]

theorem reserveC_data (buf : BufC) (amt : Nat) : (reserveC buf amt).data = buf.data := by
  simp only [reserveC]
  split
  · rfl
  · rfl

theorem reserveC_capacity (buf : BufC) (amt : Nat) :
    buf.data.length + amt ≤ (reserveC buf amt).capacity := by
  simp only [reserveC]
  split
  · split <;> simp <;> omega
  · omega

theorem pushC_spec (buf : BufC) (c : Nat) (h2 : 2 ≤ buf.capacity)
    (hl : buf.data.length ≤ buf.capacity) :
    ∃ b, pushC buf c = some b ∧ b.data = buf.data ++ [c] ∧
      2 ≤ b.capacity ∧ b.data.length ≤ b.capacity := by
  simp only [pushC]
  by_cases he : buf.data.length = buf.capacity
  · rw [if_pos he, if_pos (by omega)]
    refine ⟨_, rfl, rfl, by simp; omega, ?_⟩
    simp [he]
    omega
  · rw [if_neg he, if_pos (by omega)]
    refine ⟨_, rfl, rfl, by simp; omega, ?_⟩
    simp
    omega

theorem demangleGo_nil (junk fuel : Nat) (buf : BufC) (h : 0 < fuel) :
    demangleGo junk fuel [] buf = .ok buf.data := by
  obtain ⟨f, rfl⟩ : ∃ f, fuel = f + 1 := ⟨fuel - 1, by omega⟩
  rfl

theorem demangleGo_zHex (junk fuel d t : Nat) (ds rest : List Nat) (buf : BufC)
    (hd : isDigit d = true)
    (hds : ∀ c ∈ d :: ds, isXDigit c = true)
    (ht : isXDigit t = false) :
    demangleGo junk (fuel + 1) (122 :: ((d :: ds) ++ t :: rest)) buf =
      if t = 85 then
        match charCodeBytes (List.foldl hexVal32 0 (d :: ds)) with
        | some bs =>
          match writeCells (reserveC buf 4) bs.length bs with
          | some b2 => demangleGo junk fuel rest b2
          | none => .oob
        | none => .fail
      else .fail := by
  have hrun := hexRun_append (d :: ds) t rest 0 hds ht
  simp only [List.cons_append] at hrun
  simp [demangleGo, hd, hrun]

/-- Behaviour of an ordinary-tuple escape Z, digit run, T that opens the
input, from the initial buffer of capacity 20: with a the uint32 value of
the run, arity 1 is a failure; arity 4294967295 makes RESERVE(arity + 1)
wrap to 0, so the arity + 1 raw stores run past the block (oob); every
other arity yields the bracket, arity - 1 commas, bracket. -/
theorem demangle_zT_go (junk d : Nat) (ds : List Nat)
    (hds : ∀ c ∈ d :: ds, isDigit c = true) :
    demangleGo junk ((90 :: ((d :: ds) ++ [84])).length + 1) (90 :: ((d :: ds) ++ [84]))
        { capacity := 20, data := [] } =
      if decVal (d :: ds) % 4294967296 = 1 then DemRes.fail
      else if decVal (d :: ds) % 4294967296 = 4294967295 then DemRes.oob
      else DemRes.ok (40 :: (List.replicate (decVal (d :: ds) % 4294967296 - 1) 44 ++ [41])) := by
  have hd : isDigit d = true := hds d (by simp)
  have hrun0 := decRun_val (d :: ds) 84 [] hds (by decide)
  simp only [List.cons_append] at hrun0
  obtain ⟨a, ha, hrun⟩ : ∃ a, a = decVal (d :: ds) % 4294967296 ∧
      decRun 0 (d :: (ds ++ [84])) = (a, [84]) := ⟨_, rfl, hrun0⟩
  have hma : a < 4294967296 := by rw [ha]; exact Nat.mod_lt _ (by omega)
  have hnil : ∀ b : BufC, demangleGo junk (ds.length + 1 + 1 + 1) [] b = .ok b.data :=
    fun b => demangleGo_nil junk _ b (by omega)
  rw [← ha]
  by_cases h1 : a = 1
  · simp [demangleGo, hd, hrun, h1]
  · by_cases hM : a = 4294967295
    · subst hM
      simp [demangleGo, hd, hrun, h1, reserveC, writeCells]
    · by_cases h0 : a = 0
      · subst h0
        have hnw : writeCells (reserveC { capacity := 20, data := [] } 2) 2 [40, 41] =
            some { capacity := 20, data := [40, 41] } := by decide
        simp [demangleGo, hd, hrun, hnw, hnil]
      · have hamt : (a + 1) % 4294967296 = a + 1 := Nat.mod_eq_of_lt (by omega)
        have hcap := reserveC_capacity { capacity := 20, data := [] } (a + 1)
        have hdata := reserveC_data { capacity := 20, data := [] } (a + 1)
        have hw : writeCells (reserveC { capacity := 20, data := [] } (a + 1)) (a + 1)
            (40 :: (List.replicate (a - 1) 44 ++ [41])) =
            some { capacity := (reserveC { capacity := 20, data := [] } (a + 1)).capacity
                   data := 40 :: (List.replicate (a - 1) 44 ++ [41]) } := by
          simp only [writeCells, hdata]
          rw [if_pos (by simp at hcap ⊢; omega)]
          simp [hdata]
        simp [demangleGo, hd, hrun, h0, h1, hM, hamt, hw, hnil]

theorem demangleGo_literal (junk : Nat) (s : List Nat) :
    ∀ (fuel : Nat) (buf : BufC), s.length < fuel →
    (∀ c ∈ s, c ≠ 0 ∧ c ≠ 122 ∧ c ≠ 90) →
    2 ≤ buf.capacity → buf.data.length ≤ buf.capacity →
    demangleGo junk fuel s buf = .ok (buf.data ++ s) := by
  induction s with
  | nil => intro fuel buf hf _ _ _; rw [demangleGo_nil junk fuel buf hf]; simp
  | cons c tl ih =>
    intro fuel buf hf hs h2 hl
    obtain ⟨f, rfl⟩ : ∃ f, fuel = f + 1 := ⟨fuel - 1, by omega⟩
    obtain ⟨h0, h122, h90⟩ := hs c (by simp)
    obtain ⟨b, hb, hbd, hb2, hbl⟩ := pushC_spec buf c h2 hl
    simp only [demangleGo]
    rw [if_neg h122, if_neg h90, if_neg h0, hb]
    dsimp only
    rw [ih f b (by simp at hf ⊢; omega) (fun x hx => hs x (by simp [hx])) hb2 hbl]
    simp [hbd]

/-- Claim C9: decode terminates on every finite input.  Every iteration of
the scanner loop either returns (success, failure, or the out-of-bounds
marker) or recurses after consuming at least one input byte, so with fuel
exceeding the input length the fuel is never exhausted: the fuelOut
marker of the embedding is unreachable, which is exactly the
well-foundedness of the loop in the remaining input length.  The decode
entry point demangle runs demangleGo with fuel equal to input length plus
one, which this theorem covers, from any buffer state. -/
theorem c9_thm (junk : Nat) : ∀ (fuel : Nat) (s : List Nat) (buf : BufC),
    s.length < fuel → demangleGo junk fuel s buf ≠ DemRes.fuelOut := by
  intro fuel
  induction fuel with
  | zero => intro s buf h; exact absurd h (by omega)
  | succ f ih =>
    intro s buf h
    cases s with
    | nil => simp [demangleGo]
    | cons c rest =>
      simp only [demangleGo]
      by_cases h122 : c = 122
      · rw [if_pos h122]
        cases rest with
        | nil => simp
        | cons d rest2 =>
          have hs2 : rest2.length + 1 < f := by simpa using h
          dsimp only
          by_cases hd : isDigit d
          · rw [if_pos hd]
            rcases hr : hexRun 0 (d :: rest2) with ⟨v, r2⟩
            have hlen := hexRun_length (d :: rest2) 0
            rw [hr] at hlen
            cases r2 with
            | nil => simp [hr]
            | cons u r3 =>
              have hl3 : r3.length ≤ rest2.length := by simpa using hlen
              by_cases hu : u = 85
              · subst hu
                cases hcb : charCodeBytes v with
                | none => simp [hr, hcb]
                | some bs =>
                  cases hw : writeCells (reserveC buf 4) bs.length bs with
                  | none => simp [hr, hcb, hw]
                  | some b2 => simpa [hr, hcb, hw] using ih r3 b2 (by omega)
              · simp [hr, hu]
          · rw [if_neg hd]
            by_cases hg : d < 97 ∨ 122 < d
            · simp [hg]
            · rw [if_neg hg]
              by_cases hz : z_chars (d - 97) = 0
              · simp [hz]
              · rw [if_neg hz]
                cases hp : pushC buf (z_chars (d - 97)) with
                | none => simp [hp]
                | some b => simpa [hp] using ih rest2 b (by omega)
      · rw [if_neg h122]
        by_cases h90 : c = 90
        · rw [if_pos h90]
          cases rest with
          | nil => simp
          | cons d rest2 =>
            have hs2 : rest2.length + 1 < f := by simpa using h
            dsimp only
            by_cases hd : isDigit d
            · rw [if_pos hd]
              rcases hr : decRun 0 (d :: rest2) with ⟨a, r2⟩
              have hlen := decRun_length (d :: rest2) 0
              rw [hr] at hlen
              cases r2 with
              | nil => simp [hr]
              | cons u r3 =>
                have hl3 : r3.length ≤ rest2.length := by simpa using hlen
                by_cases hu84 : u = 84
                · subst hu84
                  by_cases ha0 : a = 0
                  · cases hw : writeCells (reserveC buf 2) 2 [40, 41] with
                    | none => simp [hr, ha0, hw]
                    | some b => simpa [hr, ha0, hw] using ih r3 b (by omega)
                  · by_cases ha1 : a = 1
                    · simp [hr, ha0, ha1]
                    · cases hw : writeCells (reserveC buf ((a + 1) % 4294967296)) (a + 1)
                          (40 :: (List.replicate (a - 1) 44 ++ [41])) with
                      | none => simp [hr, ha0, ha1, hw]
                      | some b => simpa [hr, ha0, ha1, hw] using ih r3 b (by omega)
                · by_cases hu72 : u = 72
                  · subst hu72
                    by_cases ha0 : a = 0
                    · simp [hr, hu84, ha0]
                    · by_cases ha1 : a = 1
                      · cases hp : pushStrC junk buf [40, 35, 32, 35, 41] with
                        | none => simp [hr, hu84, ha0, ha1, hp]
                        | some b => simpa [hr, hu84, ha0, ha1, hp] using ih r3 b (by omega)
                      · cases hw : writeCells (reserveC buf ((a + 3) % 4294967296)) (a + 3)
                            (40 :: 35 :: (List.replicate (a - 1) 44 ++ [35, 41])) with
                        | none => simp [hr, hu84, ha0, ha1, hw]
                        | some b => simpa [hr, hu84, ha0, ha1, hw] using ih r3 b (by omega)
                  · simp [hr, hu84, hu72]
            · rw [if_neg hd]
              by_cases hg : d < 67 ∨ 90 < d
              · simp [hg]
              · rw [if_neg hg]
                by_cases hz : Z_chars (d - 67) = 0
                · simp [hz]
                · rw [if_neg hz]
                  cases hp : pushC buf (Z_chars (d - 67)) with
                  | none => simp [hp]
                  | some b => simpa [hp] using ih rest2 b (by omega)
        · rw [if_neg h90]
          by_cases h0 : c = 0
          · simp [h0]
          · rw [if_neg h0]
            cases hp : pushC buf c with
            | none => simp [hp]
            | some b => simpa [hp] using ih rest b (by simp at h; omega)

/-- Witness for C9 at a concrete fuel, input and buffer. -/
theorem c9_witness :
    demangleGo 0 1 [] { capacity := 20, data := [] } ≠ DemRes.fuelOut :=
  c9_thm 0 1 [] { capacity := 20, data := [] } (by decide)

/-- Claim C3 counterexample: decode applied to "ZZT" (bytes 90, 90, 84)
returns "ZT" (bytes 90, 84), not "()" (bytes 40, 41): after the first Z
the lookahead Z is not a digit, so it resolves through the uppercase
escape table to the literal letter Z, and the T is then copied verbatim. -/
theorem c3_counterexample :
    demangle 0 [90, 90, 84] = some [90, 84] ∧
    demangle 0 [90, 90, 84] ≠ some [40, 41] := by decide

/-- Claim C3 amended: the arity-0 ordinary tuple input is "Z0T", which
decodes to "()"; "ZZT" itself decodes to "ZT", because ZZ is the escape
for a literal Z. -/
theorem c3_amended_thm (junk : Nat) :
    demangle junk [90, 48, 84] = some [40, 41] ∧
    demangle junk [90, 90, 84] = some [90, 84] := ⟨rfl, rfl⟩

/-- Claim C4 counterexample: the loop condition of the hex run is
isxdigit, which holds of uppercase A (byte 65), so in "z4AU" the A is
consumed as part of the run (with the lowercase-assuming value
10 + A - 97 wrapped in uint32 arithmetic), giving code point 42 and a
successful decode.  Under the claim the run would stop before A, A is
not U, and the decode would fail. -/
theorem c4_counterexample :
    isXDigit 65 = true ∧ demangle 0 [122, 52, 65, 85] = some [42] := by decide

/-- Claim C4 amended: the scanner advances past every byte satisfying
isxdigit - decimal digits, lowercase a to f, and also uppercase A to F -
and the first byte outside that set must be the literal U (byte 85),
otherwise decode fails; in particular "z41X" fails. -/
theorem c4_amended_thm (junk d t : Nat) (ds rest : List Nat)
    (hd : isDigit d = true)
    (hds : ∀ c ∈ d :: ds, isXDigit c = true)
    (ht : isXDigit t = false) (htu : t ≠ 85) :
    demangle junk (122 :: ((d :: ds) ++ t :: rest)) = none := by
  unfold demangle
  rw [demangleGo_zHex junk (122 :: ((d :: ds) ++ t :: rest)).length d t ds rest
    { capacity := 20, data := [] } hd hds ht]
  simp [htu]

/-- Witness for C4 at the input "z41X" (bytes 122, 52, 49, 88). -/
theorem c4_witness : demangle 0 [122, 52, 49, 88] = none :=
  c4_amended_thm 0 52 88 [49] [] (by decide) (by decide) (by decide) (by decide)

/-- Claim C5 counterexample: the hex run "100000000" denotes 2 to the 32,
which is far above 0x10FFFF, yet decode succeeds: char_code is a uint32
and the accumulated value wraps to 0, so a NUL byte is emitted into the
output. -/
theorem c5_counterexample :
    1114111 < hexDenoted [49, 48, 48, 48, 48, 48, 48, 48, 48] ∧
    demangle 0 [122, 49, 48, 48, 48, 48, 48, 48, 48, 48, 85] = some [0] := by
  decide

/-- Claim C5 amended: the code point accumulates in a 32-bit unsigned
integer, so the run is interpreted mod 2 to the 32; whenever the reduced
value exceeds 0x10FFFF the decode fails, and the uniform failure carries
no partial output for the escape. -/
theorem c5_amended_thm (junk d : Nat) (ds rest : List Nat)
    (hd : isDigit d = true)
    (hds : ∀ c ∈ d :: ds, isXDigit c = true)
    (hv : 1114111 < List.foldl hexVal32 0 (d :: ds)) :
    demangle junk (122 :: ((d :: ds) ++ 85 :: rest)) = none := by
  unfold demangle
  rw [demangleGo_zHex junk (122 :: ((d :: ds) ++ 85 :: rest)).length d 85 ds rest
    { capacity := 20, data := [] } hd hds (by decide)]
  have hc : charCodeBytes (List.foldl hexVal32 0 (d :: ds)) = none := by
    simp only [charCodeBytes]
    rw [if_neg (by omega), if_neg (by omega), if_neg (by omega), if_neg (by omega)]
  simp only [List.foldl] at hc
  simp [hc]

/-- Witness for C5 at the input "z110000U" (value 0x110000 = 1114112). -/
theorem c5_witness : demangle 0 [122, 49, 49, 48, 48, 48, 48, 85] = none :=
  c5_amended_thm 0 49 [49, 48, 48, 48, 48] [] (by decide) (by decide) (by decide)

/-- Claim C6 (code defect at one arity, correct elsewhere): for a Z
escape with a decimal arity run terminated by T whose value n keeps
RESERVE(n + 1) from wrapping in uint32 (n at most 4294967294): arity 0
yields "()", arity 1 fails, and arity n at least 2 yields an opening
bracket, n - 1 commas and a closing bracket (the right-hand side also
reads "()" for n = 0 since n - 1 = 0 in Nat, matching the dedicated
arity-0 case of the code).  At arity 4294967295, however, the claim
fails on the code: RESERVE(arity + 1) wraps to 0, so the arity + 1 raw
stores are not covered by any reservation and run past the 20-byte block
- an out-of-bounds heap write, shown by the second conjunct on the input
"Z4294967295T". -/
theorem c6_thm :
    (∀ (junk d : Nat) (ds : List Nat), (∀ c ∈ d :: ds, isDigit c = true) →
      decVal (d :: ds) ≤ 4294967294 →
      demangle junk (90 :: ((d :: ds) ++ [84])) =
        if decVal (d :: ds) = 1 then none
        else some (40 :: (List.replicate (decVal (d :: ds) - 1) 44 ++ [41]))) ∧
    demangleGo 0 13 [90, 52, 50, 57, 52, 57, 54, 55, 50, 57, 53, 84]
        { capacity := 20, data := [] } = DemRes.oob := by
  constructor
  · intro junk d ds hds hle
    have hmod : decVal (d :: ds) % 4294967296 = decVal (d :: ds) :=
      Nat.mod_eq_of_lt (by omega)
    have h := demangle_zT_go junk d ds hds
    rw [hmod] at h
    unfold demangle
    rw [h]
    by_cases h1 : decVal (d :: ds) = 1
    · simp [h1]
    · have hM : ¬ decVal (d :: ds) = 4294967295 := by omega
      simp [h1, hM]
  · decide

/-- Witness for C6 at the input "Z2T", giving "(,)". -/
theorem c6_witness : demangle 0 [90, 50, 84] = some [40, 44, 41] :=
  (c6_thm.1 0 50 [] (by decide) (by decide)).trans (by decide)

/-- Claim C7 (code defect): on input "aZ1H" the arity-1 unboxed tuple is
emitted through str_buf_push_str, whose memcpy writes at the start of the
buffer: the previously written byte a (97) is overwritten by the first
byte of "(# #)" and the written region gains one uninitialized cell
(junk), so the result is "(# #)" followed by junk rather than "a(# #)" -
for every possible content of the uninitialized cell. -/
theorem c7_thm (junk : Nat) :
    demangle junk [97, 90, 49, 72] = some [40, 35, 32, 35, 41, junk] ∧
    demangle junk [97, 90, 49, 72] ≠ some [97, 40, 35, 32, 35, 41] := by
  have e : demangle junk [97, 90, 49, 72] = some [40, 35, 32, 35, 41, junk] := rfl
  refine ⟨e, ?_⟩
  rw [e]
  simp

/-- Claim C8: decode is the identity on every input containing neither
z (122) nor Z (90); the hypothesis also records that no byte is 0, which
is automatic for the content of a null-terminated string.  The empty
string is the instance s = []. -/
theorem c8_thm (junk : Nat) (s : List Nat)
    (h : ∀ c ∈ s, c ≠ 0 ∧ c ≠ 122 ∧ c ≠ 90) :
    demangle junk s = some s := by
  unfold demangle
  rw [demangleGo_literal junk s (s.length + 1) { capacity := 20, data := [] }
    (by omega) h (by decide) (by decide)]
  simp

/-- Witness for C8 at the empty input and at the input "hi". -/
theorem c8_witness :
    demangle 0 [] = some [] ∧ demangle 0 [104, 105] = some [104, 105] :=
  ⟨c8_thm 0 [] (by simp), c8_thm 0 [104, 105] (by decide)⟩

/-- Claim C10 counterexample: the digit run "4294967295" denotes residue
4294967295 of 2 to the 32 directly, and there the code does not emit the
tuple for that arity (nor fail cleanly): RESERVE(arity + 1) wraps to 0 in
uint32, so the arity + 1 raw stores into the 20-byte block are an
out-of-bounds heap write. -/
theorem c10_counterexample :
    demangleGo 0 13 [90, 52, 50, 57, 52, 57, 54, 55, 50, 57, 53, 84]
        { capacity := 20, data := [] } = DemRes.oob ∧
    demangle 0 [90, 52, 50, 57, 52, 57, 54, 55, 50, 57, 53, 84] ≠
      some (40 :: (List.replicate 4294967294 44 ++ [41])) := by
  constructor
  · decide
  · have h : demangle 0 [90, 52, 50, 57, 52, 57, 54, 55, 50, 57, 53, 84] = none := by
      decide
    intro hcon
    rw [h] at hcon
    exact Option.noConfusion hcon

/-- Claim C10 amended: the arity accumulates in a 32-bit unsigned
integer, so a decimal run denoting v selects the behaviour of the residue
v mod 2 to the 32: failure for residue 1; an out-of-bounds heap write for
residue 4294967295, whose wrapped RESERVE amount covers none of the
stores; and otherwise a bracket, residue - 1 commas and a closing bracket
(which for residue 0 is exactly "()", as for the run "4294967296"). -/
theorem c10_thm (junk d : Nat) (ds : List Nat)
    (hds : ∀ c ∈ d :: ds, isDigit c = true) :
    demangleGo junk ((90 :: ((d :: ds) ++ [84])).length + 1) (90 :: ((d :: ds) ++ [84]))
        { capacity := 20, data := [] } =
      if decVal (d :: ds) % 4294967296 = 1 then DemRes.fail
      else if decVal (d :: ds) % 4294967296 = 4294967295 then DemRes.oob
      else DemRes.ok (40 :: (List.replicate (decVal (d :: ds) % 4294967296 - 1) 44 ++ [41])) :=
  demangle_zT_go junk d ds hds

/-- Witness for C10 at the run "4294967296" (2 to the 32), which behaves
exactly as arity 0 and yields "()". -/
theorem c10_witness :
    demangleGo 0 13 [90, 52, 50, 57, 52, 57, 54, 55, 50, 57, 54, 84]
        { capacity := 20, data := [] } = DemRes.ok [40, 41] :=
  (c10_thm 0 52 [50, 57, 52, 57, 54, 55, 50, 57, 54] (by decide)).trans (by decide)

/-- Claim C1 (code defect): str_buf_push_str does not place the new bytes
after the existing ones: its memcpy destination is the start of the
block.  On a buffer holding the single byte 97 (length 1, capacity 20)
with no injected allocation failure, pushing the bytes 98, 99 succeeds
but leaves contents 98, 99 followed by one never-written cell, instead of
the old contents followed by the new bytes. -/
theorem c1_thm :
    (match str_buf_push_str 0
        { capacity := 20, length := 1, data := some (97 :: List.replicate 19 0) }
        { oracle := [], live := 1 } [98, 99] with
      | .ok b _ => bufContents b
      | _ => none) = some [98, 99, 0] ∧ [98, 99, 0] ≠ [97] ++ [98, 99] := by decide

/-- Claim C2 (code defect): allocation failure is not handled safely.
With the very first allocation failing, decoding the empty string writes
the terminator byte through the NULL result of the unchecked initial
malloc(20).  With the first growth realloc failing instead (input of
twenty letters a), the data pointer is overwritten by NULL before the
fail path runs, so free is applied to NULL and the decode returns the
failure value while one block is still allocated - a leak, not the total
release the claim requires. -/
theorem c2_thm :
    haskell_demangle 0 [true] [] = ARes.nullDeref ∧
    haskell_demangle 0 [false, true] (List.replicate 20 97) = ARes.fail 1 := by
  decide
